import Mathlib

/-!
Shallow embedding of `varnishbackend_exporter.go`: the Varnish management
protocol client (`VarnishWrapper.ReadResponse`, `Send`, `CommandForSuccess`),
the challenge-response authentication, the listing parser/aggregator, the
supervisor loop, and the gauge-publishing step.

The connection's incoming byte stream is modelled as a `List Char` (the bytes
the server will send, in order); reading consumes a prefix.  Machine `int`s
are `Nat`/`Int`.  A Go runtime panic (slice index out of range) is modelled
as `none` of an `Option`.
-/

namespace VBE

/-! ### Listing lines: `strings.Fields`, header detection, `bufio.Scanner` lines -/

/-- Worker for `strings.Fields`: `acc` holds the reversed characters of the
field being built. -/
def fieldsAux : List Char → List Char → List String
  | [], [] => []
  | [], acc => [String.mk acc.reverse]
  | c :: cs, acc =>
    if c.isWhitespace then
      match acc with
      | [] => fieldsAux cs []
      | acc => String.mk acc.reverse :: fieldsAux cs []
    else fieldsAux cs (c :: acc)

/-- Go `strings.Fields`: split around runs of whitespace, dropping empty
pieces.  (Go uses `unicode.IsSpace`; listing lines only ever contain ASCII
whitespace, covered by `Char.isWhitespace`.) -/
def goFields (t : String) : List String :=
  fieldsAux t.data []

/-- The header-line test: `strings.HasPrefix(t, "Backend name ")`. -/
def isHeaderLine (t : String) : Bool :=
  List.isPrefixOf ("Backend name ".data) t.data

/-- Strip one trailing carriage return, as `bufio.ScanLines` does. -/
def dropCR (s : String) : String :=
  if s.data.getLast? = some '\r' then String.mk s.data.dropLast else s

/-- Split at every `\n` (Go `strings.Split(s, "\n")` on the character
list); `acc` holds the reversed characters of the current piece. -/
def splitNLAux : List Char → List Char → List String
  | [], acc => [String.mk acc.reverse]
  | c :: cs, acc =>
    if c = '\n' then String.mk acc.reverse :: splitNLAux cs []
    else splitNLAux cs (c :: acc)

/-- `bufio.Scanner` with the default line splitter over a string: lines are
separated by `\n`; a final empty token after a trailing `\n` is not
produced; each line has a trailing `\r` stripped. -/
def scanLines (s : String) : List String :=
  if s = "" then []
  else
    let ls := (splitNLAux s.data []).map dropCR
    if s.data.getLast? = some '\n' then ls.dropLast else ls

/-! ### `fmt.Fscanf(conn, "%03d %8d\n", &status, &length)`

The verb `%d` with a maximum width skips leading spaces and then consumes at
most `width` decimal digits (at least one); the literal space in the format
matches zero or more spaces; the trailing `\n` matches optional spaces
followed by a newline.  Protocol headers carry non-negative numbers, so the
digits-only form of `%d` is modelled. -/

def skipSpaces : List Char → List Char
  | [] => []
  | c :: rest => if c = ' ' ∨ c = '\t' then skipSpaces rest else c :: rest

/-- Consume at most `w` leading decimal digits. -/
def takeDigits : Nat → List Char → (List Char × List Char)
  | 0, cs => ([], cs)
  | _ + 1, [] => ([], [])
  | w + 1, c :: cs =>
    if c.isDigit then
      let p := takeDigits w cs
      (c :: p.1, p.2)
    else ([], c :: cs)

/-- Numeric value of a decimal digit string (most significant first). -/
def digitsVal (ds : List Char) : Nat :=
  ds.foldl (fun a c => a * 10 + (c.toNat - 48)) 0

/-- One `%<width>d` verb: skip spaces, read 1..width digits. -/
def scanNum (width : Nat) (cs : List Char) : Option (Nat × List Char) :=
  let p := takeDigits width (skipSpaces cs)
  match p with
  | ([], _) => none
  | (ds, rest) => some (digitsVal ds, rest)

/-- The whole header scan `"%03d %8d\n"`: status, length, remaining stream. -/
def scanHeader (cs : List Char) : Option (Nat × Nat × List Char) :=
  match scanNum 3 cs with
  | none => none
  | some (status, cs1) =>
    match scanNum 8 cs1 with
    | none => none
    | some (length, cs2) =>
      match skipSpaces cs2 with
      | '\n' :: rest => some (status, length, rest)
      | _ => none

/-! ### `VarnishWrapper.ReadResponse` -/

/-- Result of `ReadResponse`: the returned `(code int, response *string)`
plus the unconsumed remainder of the incoming stream. -/
structure ReadResp where
  code : Int
  body : Option String
  rest : List Char
  deriving Repr, DecidableEq

/-- `VarnishWrapper.ReadResponse`.  On header-scan failure it returns
`(-1, nil)`.  Otherwise it reads into a buffer of `length+1` bytes; on our
deterministic stream a single `conn.Read` yields `min (length+1) available`
bytes, so both the read-error branch and the `l != length+1` branch are the
condition that fewer than `length+1` bytes are available.  On success the
body is `buf[0 : len(buf)-1]`, i.e. the buffer minus its final byte. -/
def readResponse (cs : List Char) : ReadResp :=
  match scanHeader cs with
  | none => ⟨-1, none, cs⟩
  | some (status, length, rest) =>
    if (rest.take (length + 1)).length ≠ length + 1 then ⟨-1, none, cs⟩
    else ⟨(status : Int), some (String.mk (rest.take (length + 1)).dropLast),
      rest.drop (length + 1)⟩

/-! ### Go `fmt.Sprintf "%03d %8d\n"` (the server's header encoder) -/

/-- Digits worker with explicit fuel (any `fuel > n` gives the digits);
structural recursion so terms evaluate by kernel reduction. -/
def natDigitsAux : Nat → Nat → List Char
  | 0, _ => []
  | fuel + 1, n =>
    if n < 10 then [Char.ofNat (48 + n)]
    else natDigitsAux fuel (n / 10) ++ [Char.ofNat (48 + n % 10)]

/-- Decimal digit characters of `n`, most significant first. -/
def natDigits (n : Nat) : List Char :=
  natDigitsAux (n + 1) n

/-- Left-pad with `c` to width `w`. -/
def padLeft (c : Char) (w : Nat) (s : List Char) : List Char :=
  List.replicate (w - s.length) c ++ s

/-- The header a conforming server emits: `fmt.Sprintf("%03d %8d\n", status, length)`
(zero-padded 3-wide status, space, space-padded 8-wide length, newline). -/
def formatHeader (status length : Nat) : List Char :=
  padLeft '0' 3 (natDigits status) ++ [' '] ++ padLeft ' ' 8 (natDigits length) ++ ['\n']

/-! ### `Send` and the authentication handshake (`main`, lines 174-184)

`crypto/sha256` and `encoding/hex` are external library calls; the composite
`hex.EncodeToString(sha256.Sum256(bytes)[:])` is abstracted as a parameter
`sha256hex : String → String` and the embedding proves which string is fed
to it and how its output is used. -/

/-- `VarnishWrapper.Send`: the bytes written for a command with arguments,
`fmt.Sprintf("%s\n", strings.Join(append([]string{cmd}, args...), " "))`. -/
def sendBytes (cmd : String) (args : List String) : String :=
  String.intercalate " " (cmd :: args) ++ "\n"

/-- `strings.Split(s, "\n")[0]`: the first line of `s`. -/
def firstLine (s : String) : String :=
  (splitNLAux s.data []).headD ""

/-- The string hashed for authentication,
`fmt.Sprintf("%s\n%s%s\n", challenge, secret, challenge)`. -/
def authInput (challenge secret : String) : String :=
  challenge ++ "\n" ++ secret ++ challenge ++ "\n"

/-- Outcome of the per-connection handshake (`main`, lines 174-184):
either the connection is abandoned before any `auth` is sent (greeting not
107), or an `auth` command was written with a single argument, with success
decided by `CommandForSuccess` (response code = 200). -/
inductive Handshake where
  /-- `code != 107`: no `auth` command is ever written on this connection. -/
  | noPrompt
  /-- An `auth` command was written (`written` is the exact byte string);
  `ok` is the result of `CommandForSuccess`; `rest` the remaining stream. -/
  | authSent (written : String) (ok : Bool) (rest : List Char)
  deriving Repr, DecidableEq

/-- The handshake: read the greeting, require status 107, take the first
line of its body as the challenge, and run
`CommandForSuccess("auth", hex(sha256(challenge+"\n"+secret+challenge+"\n")))`. -/
def handshake (sha256hex : String → String) (secret : String)
    (stream : List Char) : Handshake :=
  let greet := readResponse stream
  if greet.code ≠ 107 then .noPrompt
  else
    match greet.body with
    | none => .noPrompt
    | some body =>
      let challenge := firstLine body
      let arg := sha256hex (authInput challenge secret)
      let reply := readResponse greet.rest
      .authSent (sendBytes "auth" [arg]) (reply.code = 200) reply.rest

/-! ### Listing parser & aggregator (`main`, lines 202-242)

A Go slice index out of range is a runtime panic; the aggregators return
`none` in that case (the process dies, no counts are produced). -/

/-- The classification expression
`fields[1] != "sick" && fields[2] == "Healthy"` with Go's short-circuit
`&&` and out-of-range panics: `none` models a panic. -/
def classifyLine (fields : List String) : Option Bool :=
  match fields with
  | _ :: f1 :: rest =>
    if f1 = "sick" then some false
    else
      match rest with
      | f2 :: _ => some (f2 = "Healthy")
      | [] => none
  | _ => none

/-- The ungrouped aggregation loop (`directorRegexp == nil`): count healthy
and sick over the non-header lines; `none` models a panic. -/
def aggregateUngrouped : List String → Nat → Nat → Option (Nat × Nat)
  | [], h, s => some (h, s)
  | t :: rest, h, s =>
    if isHeaderLine t then aggregateUngrouped rest h s
    else
      match classifyLine (goFields t) with
      | none => none
      | some true => aggregateUngrouped rest (h + 1) s
      | some false => aggregateUngrouped rest h (s + 1)

/-- The label computation (`main`, lines 222-228) on the result `m` of
`directorRegexp.FindStringSubmatch(fields[0])` (abstracted as
`find : String → Option (List String)`, `none` for Go `nil`, otherwise the
full match followed by the captured groups):
`if m != nil && len(m) > 1 { lbl = m[1] } else { lbl = "unknown" }`. -/
def extractLabel (find : String → Option (List String)) (name : String) : String :=
  match find name with
  | some (_ :: g :: _) => g
  | _ => "unknown"

/-- State of the grouped aggregation: the keys of `labelall` (each once, in
first-seen order) and the `labelhealthy` / `labelsick` maps, modelled as
total functions defaulting to 0 as Go maps do. -/
structure GroupState where
  all : List String
  healthy : String → Nat
  sick : String → Nat

/-- Go map insert `labelall[lbl] = 1` on the key set. -/
def insertLabel (l : List String) (lbl : String) : List String :=
  if lbl ∈ l then l else l ++ [lbl]

/-- Go map increment `m[lbl]++`. -/
def bump (f : String → Nat) (lbl : String) : String → Nat :=
  fun x => if x = lbl then f x + 1 else f x

/-- The grouped aggregation loop (`directorRegexp != nil`): `fields[0]` is
read first (panicking on an empty field list), the label recorded in
`labelall`, then the line classified. -/
def aggregateGrouped (find : String → Option (List String)) :
    List String → GroupState → Option GroupState
  | [], st => some st
  | t :: rest, st =>
    if isHeaderLine t then aggregateGrouped find rest st
    else
      match goFields t with
      | [] => none
      | f0 :: fs =>
        let lbl := extractLabel find f0
        let st1 : GroupState := ⟨insertLabel st.all lbl, st.healthy, st.sick⟩
        match classifyLine (f0 :: fs) with
        | none => none
        | some true => aggregateGrouped find rest ⟨st1.all, bump st1.healthy lbl, st1.sick⟩
        | some false => aggregateGrouped find rest ⟨st1.all, st1.healthy, bump st1.sick lbl⟩

/-- The initial grouped state: empty key set, maps defaulting to zero. -/
def initGroupState : GroupState := ⟨[], fun _ => 0, fun _ => 0⟩

/-- The grouped publishing loop (`main`, lines 248-252): for every key of
`labelall`, emit `(state, director, count)` gauge entries for both states,
counts defaulting to 0 for labels absent from a map. -/
def snapshotGrouped (st : GroupState) : List (String × String × Nat) :=
  st.all.flatMap (fun k => [("healthy", k, st.healthy k), ("sick", k, st.sick k)])

/-! ### Supervisor loop (`main`, lines 156-263)

The outer loop is modelled as an event-trace generator driven by a schedule
of connection attempts.  Connections are numbered by their position in the
schedule so that events can be tied to "that same connection". -/

/-- Observable events of the supervisor loop. -/
inductive Event where
  /-- `time.Sleep(5 * time.Second)` at the top of the outer loop. -/
  | sleep5
  /-- `net.DialTCP` failed; back to the top of the loop. -/
  | connectFail (cid : Nat)
  /-- `net.DialTCP` succeeded, connection `cid` is open. -/
  | connectOk (cid : Nat)
  /-- The first `ReadResponse` on connection `cid` returned `code`. -/
  | greeting (cid : Nat) (code : Int)
  /-- The `auth` command was sent on `cid`; `ok` is `CommandForSuccess`. -/
  | authAttempt (cid : Nat) (ok : Bool)
  /-- `backend.list` was sent on `cid`. -/
  | sendList (cid : Nat)
  /-- The reply to `backend.list` on `cid`; `ok` iff code 200 and no send/read error. -/
  | pollReply (cid : Nat) (ok : Bool)
  /-- `time.Sleep(interval)` at the bottom of the inner loop. -/
  | sleepInterval
  deriving Repr, DecidableEq

/-- Environment outcome of one outer-loop iteration: whether the dial
succeeds, the greeting code, whether authentication succeeds, and how many
polls succeed before one fails and breaks the inner loop. -/
structure Attempt where
  dialOk : Bool
  greetCode : Int
  authOk : Bool
  polls : Nat
  deriving Repr, DecidableEq

/-- The inner polling loop on connection `cid`: `n` successful
`backend.list` cycles (each followed by the interval sleep), then one
failing cycle that breaks out. -/
def innerTrace (cid : Nat) : Nat → List Event
  | 0 => [.sendList cid, .pollReply cid false]
  | n + 1 => [.sendList cid, .pollReply cid true, .sleepInterval] ++ innerTrace cid n

/-- Events of one outer-loop iteration after the rate-limit sleep: the
dial, the greeting check, the handshake, then the inner loop. -/
def attemptBody (cid : Nat) (a : Attempt) : List Event :=
  if ¬ a.dialOk then [.connectFail cid]
  else
    .connectOk cid :: .greeting cid a.greetCode ::
      (if a.greetCode ≠ 107 then []
       else .authAttempt cid a.authOk ::
         (if ¬ a.authOk then [] else innerTrace cid a.polls))

/-- One outer-loop iteration: the rate-limit sleep (skipped only when
`first`), then the iteration body. -/
def attemptTrace (first : Bool) (cid : Nat) (a : Attempt) : List Event :=
  (if first then [] else [.sleep5]) ++ attemptBody cid a

/-- The outer loop over a finite schedule of attempts (the real loop is
infinite; any finite prefix of its behaviour arises this way). -/
def loopTrace : Bool → Nat → List Attempt → List Event
  | _, _, [] => []
  | first, cid, a :: rest => attemptTrace first cid a ++ loopTrace false (cid + 1) rest

/-- The trace of a whole run under schedule `as`. -/
def runTrace (as : List Attempt) : List Event :=
  loopTrace true 0 as

/-- Is this event a connection attempt (dial)? -/
def isDial : Event → Bool
  | .connectFail _ => true
  | .connectOk _ => true
  | _ => false

/-- Adjacent-pair discipline: every dial is immediately preceded by the
5-second rate-limit sleep. -/
def dialAfterSleep (a b : Event) : Prop :=
  isDial b → a = .sleep5

/-- Scan a trace checking the per-connection protocol order: an `auth` may
only be sent on a connection whose greeting had code 107, and a
`backend.list` only on a connection whose `auth` succeeded.  `greeted` and
`authed` carry the connections seen so far. -/
def protocolOK (greeted authed : List Nat) : List Event → Bool
  | [] => true
  | .greeting cid c :: rest =>
    protocolOK (if c = 107 then cid :: greeted else greeted) authed rest
  | .authAttempt cid ok :: rest =>
    decide (cid ∈ greeted) && protocolOK greeted (if ok then cid :: authed else authed) rest
  | .sendList cid :: rest =>
    decide (cid ∈ authed) && protocolOK greeted authed rest
  | .sleep5 :: rest => protocolOK greeted authed rest
  | .connectFail _ :: rest => protocolOK greeted authed rest
  | .connectOk _ :: rest => protocolOK greeted authed rest
  | .pollReply _ _ :: rest => protocolOK greeted authed rest
  | .sleepInterval :: rest => protocolOK greeted authed rest

/-! ### Gauge publishing (`main`, lines 244-256)

`prometheus.GaugeVec` is external; it is modelled as a finite association
map from label combinations to values: `Reset()` clears it,
`With(labels).Set(v)` upserts.  Keys are `(state, director)` pairs. -/

/-- Drop every entry for label combination `k`. -/
def gaugeRemove : List ((String × String) × Nat) → (String × String) →
    List ((String × String) × Nat)
  | [], _ => []
  | e :: rest, k => if e.1 = k then gaugeRemove rest k else e :: gaugeRemove rest k

/-- `With(k).Set(v)`: upsert `k ↦ v`. -/
def gaugeSet (g : List ((String × String) × Nat)) (k : String × String) (v : Nat) :
    List ((String × String) × Nat) :=
  (k, v) :: gaugeRemove g k

/-- The publishing step of one cycle: optionally `Reset()`, then `Set` every
entry of the cycle's snapshot. -/
def publishCycle (reset : Bool) (g : List ((String × String) × Nat))
    (entries : List ((String × String) × Nat)) : List ((String × String) × Nat) :=
  entries.foldl (fun acc e => gaugeSet acc e.1 e.2) (if reset then [] else g)

/-- The value a scrape observes for a label combination, if any. -/
def gaugeLookup (g : List ((String × String) × Nat)) (k : String × String) : Option Nat :=
  match g with
  | [] => none
  | e :: rest => if e.1 = k then some e.2 else gaugeLookup rest k

/-! ## Helper lemmas about `readResponse` -/

theorem readResponse_scan_fail (cs : List Char) (h : scanHeader cs = none) :
    readResponse cs = ⟨-1, none, cs⟩ := by
  simp [readResponse, h]

theorem readResponse_short (cs : List Char) (status length : Nat) (rest : List Char)
    (h : scanHeader cs = some (status, length, rest)) (hl : rest.length < length + 1) :
    readResponse cs = ⟨-1, none, cs⟩ := by
  have hlen : (rest.take (length + 1)).length ≠ length + 1 := by
    rw [List.length_take]; omega
  simp only [readResponse, h, if_pos hlen]

theorem readResponse_ok (cs : List Char) (status length : Nat) (rest : List Char)
    (h : scanHeader cs = some (status, length, rest)) (hl : length + 1 ≤ rest.length) :
    readResponse cs =
      ⟨(status : Int), some (String.mk (rest.take length)), rest.drop (length + 1)⟩ := by
  have hlen : (rest.take (length + 1)).length = length + 1 := by
    rw [List.length_take]; omega
  have hdl : (rest.take (length + 1)).dropLast = rest.take length := by
    rw [List.dropLast_eq_take, hlen, List.take_take]
    congr 1
    omega
  simp [readResponse, h, hlen, hdl]

/-! ## C4 -/

/-- C4: `ReadResponse` returns the sentinel code `-1` and no body whenever
the header cannot be scanned, or fewer than `length+1` bytes can be read
from the stream (the read-error and short-read branches of the code); in
particular it never returns a truncated body.  When at least `length+1`
bytes are available it returns the parsed status code and exactly the first
`length` bytes read as the body. -/
theorem c4_read_response_failure_modes (cs : List Char) :
    (scanHeader cs = none → readResponse cs = ⟨-1, none, cs⟩) ∧
    (∀ status length rest, scanHeader cs = some (status, length, rest) →
      (rest.length < length + 1 → readResponse cs = ⟨-1, none, cs⟩) ∧
      (length + 1 ≤ rest.length →
        readResponse cs =
          ⟨(status : Int), some (String.mk (rest.take length)), rest.drop (length + 1)⟩)) := by
  refine ⟨fun h => readResponse_scan_fail cs h, fun status length rest h => ⟨?_, ?_⟩⟩
  · exact fun hl => readResponse_short cs status length rest h hl
  · exact fun hl => readResponse_ok cs status length rest h hl

/-- Witness for C4, the spec's scenario: header claims length 10 but only
8 bytes plus a terminator are available — failure, not a truncated body. -/
theorem c4_read_response_failure_modes_witness :
    scanHeader ("200       10\n12345678\n".toList) = some (200, 10, "12345678\n".toList) ∧
    ("12345678\n".toList).length < 10 + 1 ∧
    readResponse ("200       10\n12345678\n".toList) =
      ⟨-1, none, "200       10\n12345678\n".toList⟩ :=
  ⟨by decide, by decide,
    ((c4_read_response_failure_modes _).2 200 10 ("12345678\n".toList)
      (by decide)).1 (by decide)⟩

/-! ## C10 -/

/-- C10: when `ReadResponse` reads exactly `length+1` bytes, the body is the
first `length` bytes and the result does not depend on the trailing
terminator byte `t`: it is stripped but never checked to be a newline. -/
theorem c10_terminator_unchecked (cs : List Char) (status length : Nat)
    (body : List Char) (t : Char) (more : List Char)
    (h : scanHeader cs = some (status, length, body ++ t :: more))
    (hlen : body.length = length) :
    readResponse cs = ⟨(status : Int), some (String.mk body), more⟩ := by
  have hge : length + 1 ≤ (body ++ t :: more).length := by
    simp [List.length_append]
    omega
  have hok := readResponse_ok cs status length (body ++ t :: more) h hge
  rw [hok]
  have htake : (body ++ t :: more).take length = body := by
    subst hlen
    exact List.take_left body (t :: more)
  have hdrop : (body ++ t :: more).drop (length + 1) = more := by
    subst hlen
    have : body ++ t :: more = (body ++ [t]) ++ more := by simp
    rw [this]
    have hl1 : body.length + 1 = (body ++ [t]).length := by simp
    rw [hl1]
    exact List.drop_left (body ++ [t]) more
  rw [htake, hdrop]

/-- Witness for C10: the terminator byte is `X`, not a newline; the body is
still returned unchanged. -/
theorem c10_terminator_unchecked_witness :
    scanHeader ("107        3\nabcXrest".toList) =
      some (107, 3, "abc".toList ++ 'X' :: "rest".toList) ∧
    ("abc".toList).length = 3 ∧
    readResponse ("107        3\nabcXrest".toList) = ⟨107, some "abc", "rest".toList⟩ :=
  ⟨by decide, by decide,
    c10_terminator_unchecked ("107        3\nabcXrest".toList) 107 3
      ("abc".toList) 'X' ("rest".toList) (by decide) (by decide)⟩

/-! ## C1 -/

/-- C1: for a non-header line with at least 3 whitespace-delimited fields,
the aggregation loop counts the backend healthy exactly when field 1 is not
the literal `sick` and field 2 is exactly `Healthy`; every other
combination is counted sick. -/
theorem c1_classification_rule (t : String) (rest : List String) (h s : Nat)
    (hhdr : isHeaderLine t = false) (hlen : 3 ≤ (goFields t).length) :
    aggregateUngrouped (t :: rest) h s =
      if (goFields t).getD 1 "" ≠ "sick" ∧ (goFields t).getD 2 "" = "Healthy" then
        aggregateUngrouped rest (h + 1) s
      else
        aggregateUngrouped rest h (s + 1) := by
  obtain ⟨f0, f1, f2, fs, hf⟩ : ∃ f0 f1 f2 fs, goFields t = f0 :: f1 :: f2 :: fs := by
    match hg : goFields t with
    | [] => rw [hg] at hlen; simp at hlen
    | [_] => rw [hg] at hlen; simp at hlen
    | [_, _] => rw [hg] at hlen; simp at hlen
    | f0 :: f1 :: f2 :: fs => exact ⟨f0, f1, f2, fs, rfl⟩
  by_cases h1 : f1 = "sick"
  · simp [aggregateUngrouped, hhdr, hf, classifyLine, h1]
  · by_cases h2 : f2 = "Healthy"
    · simp [aggregateUngrouped, hhdr, hf, classifyLine, h1, h2]
    · simp [aggregateUngrouped, hhdr, hf, classifyLine, h1, h2]

/-- Witness for C1 at the spec's scenario line. -/
theorem c1_classification_rule_witness :
    isHeaderLine "web1_fe healthy Healthy" = false ∧
    3 ≤ (goFields "web1_fe healthy Healthy").length ∧
    aggregateUngrouped ["web1_fe healthy Healthy"] 0 0 = some (1, 0) :=
  ⟨by decide, by decide, by
    rw [c1_classification_rule "web1_fe healthy Healthy" [] 0 0 (by decide) (by decide)]
    decide⟩

/-! ## C2 -/

/-- C2 (the code, evaluated at the failing inputs): a listing line with
fewer than 3 fields makes the aggregation loop index `fields` out of range
-- a Go runtime panic that kills the process (`none`), dropping the whole
cycle -- except in the single short-circuit case of a 2-field line whose
second field is exactly `sick`, which is counted sick. -/
theorem c2_short_line_panics :
    aggregateUngrouped [""] 0 0 = none ∧
    aggregateUngrouped ["b1 healthy"] 0 0 = none ∧
    (aggregateGrouped (fun _ => none) [""] initGroupState).isNone = true ∧
    aggregateUngrouped ["b1 sick"] 0 0 = some (0, 1) :=
  ⟨by decide, by decide, by decide, by decide⟩

/-! ## C5 -/

theorem aggregateUngrouped_sum (lines : List String) :
    ∀ h0 s0 h s, aggregateUngrouped lines h0 s0 = some (h, s) →
      h + s = h0 + s0 + (lines.filter (fun t => ! isHeaderLine t)).length := by
  induction lines with
  | nil =>
    intro h0 s0 h s hagg
    simp [aggregateUngrouped] at hagg
    simp [hagg.1, hagg.2]
  | cons t rest ih =>
    intro h0 s0 h s hagg
    by_cases hh : isHeaderLine t
    · simp only [aggregateUngrouped, hh, if_pos] at hagg
      have := ih h0 s0 h s hagg
      simp [List.filter, hh]
      omega
    · cases hc : classifyLine (goFields t) with
      | none => simp [aggregateUngrouped, hh, hc] at hagg
      | some b =>
        cases b with
        | true =>
          simp only [aggregateUngrouped, hh, hc] at hagg
          simp at hagg
          have := ih (h0 + 1) s0 h s hagg
          simp [List.filter, hh]
          omega
        | false =>
          simp only [aggregateUngrouped, hh, hc] at hagg
          simp at hagg
          have := ih h0 (s0 + 1) h s hagg
          simp [List.filter, hh]
          omega

theorem sum_map_add_ite (l : List String) (F : String → Nat) (lbl : String)
    (hnd : l.Nodup) (hmem : lbl ∈ l) :
    (l.map (fun k => F k + if k = lbl then 1 else 0)).sum = (l.map F).sum + 1 := by
  induction l with
  | nil => simp at hmem
  | cons a l ih =>
    rw [List.nodup_cons] at hnd
    simp only [List.map_cons, List.sum_cons]
    rcases List.mem_cons.mp hmem with h | h
    · subst h
      have heq : l.map (fun k => F k + if k = lbl then 1 else 0) = l.map F := by
        apply List.map_congr_left
        intro k hk
        have hne : k ≠ lbl := fun e => hnd.1 (e ▸ hk)
        simp [hne]
      rw [heq]
      simp
      omega
    · have hne : a ≠ lbl := by
        rintro rfl
        exact hnd.1 h
      rw [ih hnd.2 h]
      simp [hne]
      omega

theorem insertLabel_mem_self (l : List String) (lbl : String) : lbl ∈ insertLabel l lbl := by
  by_cases h : lbl ∈ l <;> simp [insertLabel, h]

theorem insertLabel_mem_of_mem (l : List String) (lbl x : String) (h : x ∈ l) :
    x ∈ insertLabel l lbl := by
  by_cases hm : lbl ∈ l <;> simp [insertLabel, hm, h]

theorem insertLabel_nodup (l : List String) (lbl : String) (h : l.Nodup) :
    (insertLabel l lbl).Nodup := by
  by_cases hm : lbl ∈ l
  · simpa [insertLabel, hm] using h
  · rw [insertLabel, if_neg hm, List.nodup_append]
    refine ⟨h, List.nodup_singleton lbl, ?_⟩
    intro a ha hb
    rw [List.mem_singleton] at hb
    exact hm (hb ▸ ha)

theorem insertLabel_mem_iff (l : List String) (lbl x : String) :
    x ∈ insertLabel l lbl ↔ x ∈ l ∨ x = lbl := by
  by_cases hm : lbl ∈ l
  · simp only [insertLabel, if_pos hm]
    constructor
    · exact fun h => Or.inl h
    · rintro (h | rfl)
      · exact h
      · exact hm
  · simp [insertLabel, hm]

/-- Invariant of the grouped aggregation loop: the label set stays
duplicate-free, counts of unseen labels stay zero, and the total count over
all labels grows by exactly one per classified line. -/
theorem aggregateGrouped_invariant (find : String → Option (List String))
    (lines : List String) :
    ∀ st st', aggregateGrouped find lines st = some st' →
      st.all.Nodup → (∀ k, k ∉ st.all → st.healthy k = 0 ∧ st.sick k = 0) →
      st'.all.Nodup ∧ (∀ k, k ∉ st'.all → st'.healthy k = 0 ∧ st'.sick k = 0) ∧
        (st'.all.map (fun k => st'.healthy k + st'.sick k)).sum =
          (st.all.map (fun k => st.healthy k + st.sick k)).sum +
            (lines.filter (fun t => ! isHeaderLine t)).length := by
  induction lines with
  | nil =>
    intro st st' hagg hnd hz
    simp [aggregateGrouped] at hagg
    subst hagg
    exact ⟨hnd, hz, by simp⟩
  | cons t rest ih =>
    intro st st' hagg hnd hz
    by_cases hh : isHeaderLine t
    · simp only [aggregateGrouped, hh, if_pos] at hagg
      have := ih st st' hagg hnd hz
      simpa [List.filter, hh] using this
    · cases hgf : goFields t with
      | nil => simp [aggregateGrouped, hh, hgf] at hagg
      | cons f0 fs =>
        cases hc : classifyLine (f0 :: fs) with
        | none => simp [aggregateGrouped, hh, hgf, hc] at hagg
        | some b =>
          have hmem : extractLabel find f0 ∈ insertLabel st.all (extractLabel find f0) :=
            insertLabel_mem_self _ _
          have hnd1 : (insertLabel st.all (extractLabel find f0)).Nodup :=
            insertLabel_nodup _ _ hnd
          -- total over the enlarged label set, before the bump
          have htot1 :
              ((insertLabel st.all (extractLabel find f0)).map
                (fun k => st.healthy k + st.sick k)).sum =
              (st.all.map (fun k => st.healthy k + st.sick k)).sum := by
            by_cases hin : extractLabel find f0 ∈ st.all
            · rw [insertLabel, if_pos hin]
            · rw [insertLabel, if_neg hin]
              have := hz _ hin
              simp [this.1, this.2]
          cases b with
          | true =>
            simp only [aggregateGrouped, hh, hgf, hc] at hagg
            simp at hagg
            have hz1 : ∀ k, k ∉ insertLabel st.all (extractLabel find f0) →
                bump st.healthy (extractLabel find f0) k = 0 ∧ st.sick k = 0 := by
              intro k hk
              have hks : k ∉ st.all := fun h => hk (insertLabel_mem_of_mem _ _ _ h)
              have hkl : k ≠ extractLabel find f0 := by
                rintro rfl
                exact hk hmem
              simp [bump, hkl, hz k hks]
            have hrec := ih _ st' hagg hnd1 hz1
            refine ⟨hrec.1, hrec.2.1, ?_⟩
            rw [hrec.2.2]
            have hbump :
                ((insertLabel st.all (extractLabel find f0)).map
                  (fun k => bump st.healthy (extractLabel find f0) k + st.sick k)).sum =
                ((insertLabel st.all (extractLabel find f0)).map
                  (fun k => st.healthy k + st.sick k)).sum + 1 := by
              have := sum_map_add_ite (insertLabel st.all (extractLabel find f0))
                (fun k => st.healthy k + st.sick k) (extractLabel find f0) hnd1 hmem
              rw [← this]
              apply congrArg
              apply List.map_congr_left
              intro k _
              by_cases hk : k = extractLabel find f0
              · simp [bump, hk]
                omega
              · simp [bump, hk]
            rw [hbump, htot1]
            simp [List.filter, hh]
            omega
          | false =>
            simp only [aggregateGrouped, hh, hgf, hc] at hagg
            simp at hagg
            have hz1 : ∀ k, k ∉ insertLabel st.all (extractLabel find f0) →
                st.healthy k = 0 ∧ bump st.sick (extractLabel find f0) k = 0 := by
              intro k hk
              have hks : k ∉ st.all := fun h => hk (insertLabel_mem_of_mem _ _ _ h)
              have hkl : k ≠ extractLabel find f0 := by
                rintro rfl
                exact hk hmem
              simp [bump, hkl, hz k hks]
            have hrec := ih _ st' hagg hnd1 hz1
            refine ⟨hrec.1, hrec.2.1, ?_⟩
            rw [hrec.2.2]
            have hbump :
                ((insertLabel st.all (extractLabel find f0)).map
                  (fun k => st.healthy k + bump st.sick (extractLabel find f0) k)).sum =
                ((insertLabel st.all (extractLabel find f0)).map
                  (fun k => st.healthy k + st.sick k)).sum + 1 := by
              have := sum_map_add_ite (insertLabel st.all (extractLabel find f0))
                (fun k => st.healthy k + st.sick k) (extractLabel find f0) hnd1 hmem
              rw [← this]
              apply congrArg
              apply List.map_congr_left
              intro k _
              by_cases hk : k = extractLabel find f0
              · simp [bump, hk]
                omega
              · simp [bump, hk]
            rw [hbump, htot1]
            simp [List.filter, hh]
            omega

/-- C5: in one poll cycle the healthy and sick counts partition the
classified lines: when aggregation completes (no panic), healthy + sick
equals the number of non-header lines, both ungrouped and (summed per group
label) grouped. -/
theorem c5_counts_partition_lines (lines : List String) :
    (∀ h s, aggregateUngrouped lines 0 0 = some (h, s) →
      h + s = (lines.filter (fun t => ! isHeaderLine t)).length) ∧
    (∀ find st, aggregateGrouped find lines initGroupState = some st →
      (st.all.map (fun k => st.healthy k + st.sick k)).sum =
        (lines.filter (fun t => ! isHeaderLine t)).length) := by
  constructor
  · intro h s hagg
    have := aggregateUngrouped_sum lines 0 0 h s hagg
    omega
  · intro find st hagg
    have := (aggregateGrouped_invariant find lines initGroupState st hagg
      (by simp [initGroupState]) (by simp [initGroupState])).2.2
    simpa [initGroupState] using this

/-- Witness for C5 at the spec's scenario body (one healthy, one sick,
one header line). -/
theorem c5_counts_partition_lines_witness :
    aggregateUngrouped
      (scanLines "Backend name Admin Health\nweb1_fe healthy Healthy\nweb2_fe sick Sick\n")
      0 0 = some (1, 1) ∧
    1 + 1 =
      ((scanLines "Backend name Admin Health\nweb1_fe healthy Healthy\nweb2_fe sick Sick\n").filter
        (fun t => ! isHeaderLine t)).length :=
  ⟨by decide,
    (c5_counts_partition_lines
      (scanLines "Backend name Admin Health\nweb1_fe healthy Healthy\nweb2_fe sick Sick\n")).1
      1 1 (by decide)⟩

theorem aggregateGrouped_all_mono (find : String → Option (List String))
    (lines : List String) :
    ∀ st st', aggregateGrouped find lines st = some st' → ∀ x ∈ st.all, x ∈ st'.all := by
  induction lines with
  | nil =>
    intro st st' hagg x hx
    simp [aggregateGrouped] at hagg
    subst hagg
    exact hx
  | cons t rest ih =>
    intro st st' hagg x hx
    by_cases hh : isHeaderLine t
    · simp only [aggregateGrouped, hh, if_pos] at hagg
      exact ih st st' hagg x hx
    · cases hgf : goFields t with
      | nil => simp [aggregateGrouped, hh, hgf] at hagg
      | cons f0 fs =>
        cases hc : classifyLine (f0 :: fs) with
        | none => simp [aggregateGrouped, hh, hgf, hc] at hagg
        | some b =>
          cases b with
          | true =>
            simp only [aggregateGrouped, hh, hgf, hc] at hagg
            simp at hagg
            exact ih _ st' hagg x (insertLabel_mem_of_mem _ _ _ hx)
          | false =>
            simp only [aggregateGrouped, hh, hgf, hc] at hagg
            simp at hagg
            exact ih _ st' hagg x (insertLabel_mem_of_mem _ _ _ hx)

theorem aggregateGrouped_label_mem (find : String → Option (List String))
    (lines : List String) :
    ∀ st st', aggregateGrouped find lines st = some st' →
      ∀ t ∈ lines, isHeaderLine t = false → ∀ f0 fs, goFields t = f0 :: fs →
        extractLabel find f0 ∈ st'.all := by
  induction lines with
  | nil =>
    intro st st' _ t ht
    simp at ht
  | cons u rest ih =>
    intro st st' hagg t ht hhdr f0 fs hgf
    rcases List.mem_cons.mp ht with rfl | hmem
    · -- the head line is the one in question
      rw [Bool.eq_false_iff] at hhdr
      cases hc : classifyLine (f0 :: fs) with
      | none => simp [aggregateGrouped, hhdr, hgf, hc] at hagg
      | some b =>
        cases b with
        | true =>
          simp only [aggregateGrouped, hhdr, hgf, hc] at hagg
          simp at hagg
          exact aggregateGrouped_all_mono find rest _ st' hagg _ (insertLabel_mem_self _ _)
        | false =>
          simp only [aggregateGrouped, hhdr, hgf, hc] at hagg
          simp at hagg
          exact aggregateGrouped_all_mono find rest _ st' hagg _ (insertLabel_mem_self _ _)
    · -- the line sits in the tail; step over the head line
      by_cases hh : isHeaderLine u
      · simp only [aggregateGrouped, hh, if_pos] at hagg
        exact ih st st' hagg t hmem hhdr f0 fs hgf
      · cases hgfu : goFields u with
        | nil => simp [aggregateGrouped, hh, hgfu] at hagg
        | cons g0 gs =>
          cases hcu : classifyLine (g0 :: gs) with
          | none => simp [aggregateGrouped, hh, hgfu, hcu] at hagg
          | some b =>
            cases b with
            | true =>
              simp only [aggregateGrouped, hh, hgfu, hcu] at hagg
              simp at hagg
              exact ih _ st' hagg t hmem hhdr f0 fs hgf
            | false =>
              simp only [aggregateGrouped, hh, hgfu, hcu] at hagg
              simp at hagg
              exact ih _ st' hagg t hmem hhdr f0 fs hgf

/-- C6: the group label of a record is the first capture of the pattern
when it matches with a captured group and the literal `unknown` otherwise
(no match, or a match carrying no group), and every label encountered in
the cycle appears in the published snapshot with both its healthy and its
sick count. -/
theorem c6_group_label_and_snapshot (find : String → Option (List String))
    (lines : List String) (st : GroupState)
    (hagg : aggregateGrouped find lines initGroupState = some st) :
    (∀ name m g ms, find name = some (m :: g :: ms) → extractLabel find name = g) ∧
    (∀ name, find name = none → extractLabel find name = "unknown") ∧
    (∀ name, find name = some [] → extractLabel find name = "unknown") ∧
    (∀ name m, find name = some [m] → extractLabel find name = "unknown") ∧
    (∀ t ∈ lines, isHeaderLine t = false → ∀ f0 fs, goFields t = f0 :: fs →
      extractLabel find f0 ∈ st.all) ∧
    (∀ lbl ∈ st.all,
      ("healthy", lbl, st.healthy lbl) ∈ snapshotGrouped st ∧
      ("sick", lbl, st.sick lbl) ∈ snapshotGrouped st) := by
  refine ⟨?_, ?_, ?_, ?_, ?_, ?_⟩
  · intro name m g ms h
    simp [extractLabel, h]
  · intro name h
    simp [extractLabel, h]
  · intro name h
    simp [extractLabel, h]
  · intro name m h
    simp [extractLabel, h]
  · intro t ht hhdr f0 fs hgf
    exact aggregateGrouped_label_mem find lines initGroupState st hagg t ht hhdr f0 fs hgf
  · intro lbl hlbl
    constructor
    · simp only [snapshotGrouped, List.mem_flatMap]
      exact ⟨lbl, hlbl, by simp⟩
    · simp only [snapshotGrouped, List.mem_flatMap]
      exact ⟨lbl, hlbl, by simp⟩

/-- Witness for C6: one matched name (label `g1`) and one unmatched name
(label `unknown`); both labels appear in the snapshot with both states. -/
theorem c6_group_label_and_snapshot_witness :
    aggregateGrouped (fun s => if s = "web1" then some [s, "g1"] else none)
      ["web1 ok Healthy", "other x y"] initGroupState =
      some ⟨insertLabel (insertLabel [] "g1") "unknown",
        bump (fun _ => 0) "g1", bump (fun _ => 0) "unknown"⟩ ∧
    extractLabel (fun s => if s = "web1" then some [s, "g1"] else none) "web1" = "g1" ∧
    extractLabel (fun s => if s = "web1" then some [s, "g1"] else none) "other" = "unknown" ∧
    ("healthy", "unknown",
        (⟨insertLabel (insertLabel [] "g1") "unknown",
          bump (fun _ => 0) "g1", bump (fun _ => 0) "unknown"⟩ : GroupState).healthy "unknown") ∈
      snapshotGrouped ⟨insertLabel (insertLabel [] "g1") "unknown",
        bump (fun _ => 0) "g1", bump (fun _ => 0) "unknown"⟩ ∧
    ("sick", "g1",
        (⟨insertLabel (insertLabel [] "g1") "unknown",
          bump (fun _ => 0) "g1", bump (fun _ => 0) "unknown"⟩ : GroupState).sick "g1") ∈
      snapshotGrouped ⟨insertLabel (insertLabel [] "g1") "unknown",
        bump (fun _ => 0) "g1", bump (fun _ => 0) "unknown"⟩ := by
  have hmain := c6_group_label_and_snapshot
    (fun s => if s = "web1" then some [s, "g1"] else none)
    ["web1 ok Healthy", "other x y"]
    ⟨insertLabel (insertLabel [] "g1") "unknown",
      bump (fun _ => 0) "g1", bump (fun _ => 0) "unknown"⟩ rfl
  refine ⟨rfl, rfl, rfl, ?_, ?_⟩
  · exact (hmain.2.2.2.2.2 "unknown" (by decide)).1
  · exact (hmain.2.2.2.2.2 "g1" (by decide)).2

theorem sendBytes_auth (arg : String) : sendBytes "auth" [arg] = "auth " ++ arg ++ "\n" := by
  show ("auth" ++ " " ++ arg) ++ "\n" = "auth " ++ arg ++ "\n"
  have h1 : ("auth" : String) ++ " " = "auth " := by decide
  rw [h1]

/-- C3: on a connection whose greeting has status 107, the client sends the
command `auth` whose single argument is the hex SHA-256 of
`challenge + "\n" + secret + challenge + "\n"` where `challenge` is the
first line of the greeting body, and authentication succeeds exactly when
the reply to that `auth` command has status code 200. -/
theorem c3_challenge_response (sha256hex : String → String) (secret : String)
    (stream : List Char) (body : String) (rest : List Char)
    (h : readResponse stream = ⟨107, some body, rest⟩) :
    handshake sha256hex secret stream =
      .authSent
        ("auth " ++
          sha256hex (firstLine body ++ "\n" ++ secret ++ firstLine body ++ "\n") ++ "\n")
        (decide ((readResponse rest).code = 200)) (readResponse rest).rest := by
  unfold handshake
  rw [h]
  simp [authInput, sendBytes_auth]

/-- Witness for C3: greeting `107` with challenge `abc123`; the `auth`
argument is the hash of `"abc123\ns3cr3tabc123\n"` and the 200 reply makes
authentication succeed. -/
theorem c3_challenge_response_witness :
    readResponse ("107        7\nabc123\n\n200        0\n\n".toList) =
      ⟨107, some "abc123\n", "200        0\n\n".toList⟩ ∧
    handshake (fun s => "H(" ++ s ++ ")") "s3cr3t"
        ("107        7\nabc123\n\n200        0\n\n".toList) =
      .authSent "auth H(abc123\ns3cr3tabc123\n)\n" true [] :=
  ⟨by decide, by
    rw [c3_challenge_response (fun s => "H(" ++ s ++ ")") "s3cr3t"
      ("107        7\nabc123\n\n200        0\n\n".toList) "abc123\n"
      ("200        0\n\n".toList) (by decide)]
    decide⟩

theorem gaugeLookup_remove_ne (g : List ((String × String) × Nat))
    (k k2 : String × String) (h : k ≠ k2) :
    gaugeLookup (gaugeRemove g k2) k = gaugeLookup g k := by
  induction g with
  | nil => rfl
  | cons e rest ih =>
    by_cases he : e.1 = k2
    · have hek : ¬ e.1 = k := by
        rw [he]
        exact fun hx => h hx.symm
      simp only [gaugeRemove, if_pos he, ih, gaugeLookup, if_neg hek]
    · simp only [gaugeRemove, if_neg he]
      by_cases hk : e.1 = k
      · simp only [gaugeLookup, if_pos hk]
      · simp only [gaugeLookup, if_neg hk, ih]

theorem gaugeLookup_gaugeSet_ne (g : List ((String × String) × Nat))
    (k k2 : String × String) (v : Nat) (h : k ≠ k2) :
    gaugeLookup (gaugeSet g k2 v) k = gaugeLookup g k := by
  have hne : ¬ (k2, v).1 = k := fun hx => h (hx.symm)
  simp only [gaugeSet, gaugeLookup, if_neg hne]
  exact gaugeLookup_remove_ne g k k2 h

theorem gaugeLookup_publish_absent (entries : List ((String × String) × Nat))
    (k : String × String) (hk : ∀ e ∈ entries, e.1 ≠ k) :
    ∀ init, gaugeLookup (entries.foldl (fun acc e => gaugeSet acc e.1 e.2) init) k =
      gaugeLookup init k := by
  induction entries with
  | nil => intro init; rfl
  | cons e rest ih =>
    intro init
    have h1 : ∀ x ∈ rest, x.1 ≠ k := fun x hx => hk x (List.mem_cons_of_mem e hx)
    have h2 : k ≠ e.1 := fun hx => hk e (List.mem_cons_self e rest) hx.symm
    rw [List.foldl_cons, ih h1, gaugeLookup_gaugeSet_ne init k e.1 e.2 h2]

/-- C8: with reset-on-scan, the gauge vec is cleared before the snapshot is
written, so any label combination absent from the cycle's snapshot is
absent afterwards; without reset, a combination not overwritten by the
cycle keeps its previously published value. -/
theorem c8_reset_semantics (g entries : List ((String × String) × Nat))
    (k : String × String) (hk : ∀ e ∈ entries, e.1 ≠ k) :
    gaugeLookup (publishCycle true g entries) k = none ∧
    gaugeLookup (publishCycle false g entries) k = gaugeLookup g k := by
  constructor
  · rw [publishCycle, gaugeLookup_publish_absent entries k hk]
    rfl
  · rw [publishCycle, gaugeLookup_publish_absent entries k hk]
    simp

/-- Witness for C8: the combination `("sick", "old")` was published before,
is absent from the new cycle, disappears with reset and persists without. -/
theorem c8_reset_semantics_witness :
    (∀ e ∈ [((("healthy", "g1") : String × String), 2)], e.1 ≠ (("sick", "old") : String × String)) ∧
    gaugeLookup (publishCycle true [((("sick", "old") : String × String), 3)]
      [((("healthy", "g1") : String × String), 2)]) ("sick", "old") = none ∧
    gaugeLookup (publishCycle false [((("sick", "old") : String × String), 3)]
      [((("healthy", "g1") : String × String), 2)]) ("sick", "old") = some 3 := by
  have h := c8_reset_semantics [((("sick", "old") : String × String), 3)]
    [((("healthy", "g1") : String × String), 2)] ("sick", "old") (by decide)
  exact ⟨by decide, h.1, h.2.trans (by decide)⟩

theorem innerTrace_no_dial (cid : Nat) : ∀ n, ∀ e ∈ innerTrace cid n, isDial e = false := by
  intro n
  induction n with
  | zero =>
    intro e he
    simp [innerTrace] at he
    rcases he with rfl | rfl <;> rfl
  | succ n ih =>
    intro e he
    simp [innerTrace] at he
    rcases he with rfl | rfl | rfl | he
    · rfl
    · rfl
    · rfl
    · exact ih e he

theorem attemptBody_cases (cid : Nat) (a : Attempt) :
    attemptBody cid a = [.connectFail cid] ∨
      ∃ tail, attemptBody cid a = .connectOk cid :: tail ∧
        ∀ e ∈ tail, isDial e = false := by
  by_cases hd : a.dialOk
  · right
    refine ⟨.greeting cid a.greetCode ::
      (if a.greetCode ≠ 107 then []
       else .authAttempt cid a.authOk ::
         (if ¬ a.authOk then [] else innerTrace cid a.polls)), by simp [attemptBody, hd], ?_⟩
    intro e he
    rcases List.mem_cons.mp he with rfl | he
    · rfl
    by_cases hg : a.greetCode ≠ 107
    · rw [if_pos hg] at he
      simp at he
    · rw [if_neg hg] at he
      rcases List.mem_cons.mp he with rfl | he
      · rfl
      by_cases ha : ¬ a.authOk
      · rw [if_pos ha] at he
        simp at he
      · rw [if_neg ha] at he
        exact innerTrace_no_dial cid a.polls e he
  · left
    simp [attemptBody, hd]

theorem chain_dialAfterSleep_append (l rest : List Event)
    (hl : ∀ e ∈ l, isDial e = false)
    (hrest : List.Chain' dialAfterSleep rest)
    (hhead : ∀ e, rest.head? = some e → isDial e = false) :
    List.Chain' dialAfterSleep (l ++ rest) := by
  induction l with
  | nil => exact hrest
  | cons a l ih =>
    rw [List.cons_append]
    apply List.Chain'.cons' (ih (fun e he => hl e (List.mem_cons_of_mem a he)))
    intro b hb hdial
    exfalso
    have hbf : isDial b = false := by
      cases l with
      | nil =>
        simp at hb
        exact hhead b hb
      | cons c l2 =>
        simp at hb
        subst hb
        exact hl c (by simp)
    rw [hbf] at hdial
    cases hdial

theorem loopTrace_false_head (cid : Nat) (as : List Attempt) :
    loopTrace false cid as = [] ∨ (loopTrace false cid as).head? = some .sleep5 := by
  cases as with
  | nil => exact Or.inl rfl
  | cons a rest =>
    right
    rw [loopTrace, attemptTrace]
    simp

theorem loopTrace_chain (as : List Attempt) :
    ∀ first cid, List.Chain' dialAfterSleep (loopTrace first cid as) := by
  induction as with
  | nil =>
    intro first cid
    simp [loopTrace]
  | cons a rest ih =>
    intro first cid
    have hT := ih false (cid + 1)
    have hhead : ∀ e, (loopTrace false (cid + 1) rest).head? = some e → isDial e = false := by
      intro e he
      rcases loopTrace_false_head (cid + 1) rest with h | h
      · rw [h] at he
        simp at he
      · rw [h] at he
        cases he
        rfl
    have hbody : List.Chain' dialAfterSleep
        (attemptBody cid a ++ loopTrace false (cid + 1) rest) := by
      rcases attemptBody_cases cid a with h | ⟨tail, h, htail⟩
      · rw [h, List.singleton_append]
        apply List.Chain'.cons' hT
        intro y hy hdial
        rw [hhead y hy] at hdial
        cases hdial
      · rw [h, List.cons_append]
        apply List.Chain'.cons' (chain_dialAfterSleep_append tail _ htail hT hhead)
        intro y hy hdial
        have hyf : isDial y = false := by
          cases tail with
          | nil =>
            simp at hy
            exact hhead y hy
          | cons c tl =>
            simp at hy
            subst hy
            exact htail c (by simp)
        rw [hyf] at hdial
        cases hdial
    rw [loopTrace, attemptTrace]
    cases first with
    | true => simpa using hbody
    | false =>
      have : ((if false = true then ([] : List Event) else [.sleep5]) ++ attemptBody cid a) ++
          loopTrace false (cid + 1) rest =
          .sleep5 :: (attemptBody cid a ++ loopTrace false (cid + 1) rest) := by
        simp
      rw [this]
      apply List.Chain'.cons' hbody
      intro y _ _
      rfl

theorem protocolOK_innerTrace (cid : Nat) (greeted authed : List Nat)
    (h : cid ∈ authed) :
    ∀ n rest, protocolOK greeted authed (innerTrace cid n ++ rest) =
      protocolOK greeted authed rest := by
  intro n
  induction n with
  | zero =>
    intro rest
    simp [innerTrace, protocolOK, h]
  | succ n ih =>
    intro rest
    simp [innerTrace, protocolOK, h, List.append_assoc, ih]

theorem loopTrace_protocolOK (as : List Attempt) :
    ∀ first cid greeted authed, protocolOK greeted authed (loopTrace first cid as) = true := by
  induction as with
  | nil =>
    intro first cid greeted authed
    rfl
  | cons a rest ih =>
    intro first cid greeted authed
    rw [loopTrace, attemptTrace]
    have hpre : ∀ l : List Event,
        protocolOK greeted authed ((if first then ([] : List Event) else [.sleep5]) ++ l) =
          protocolOK greeted authed l := by
      intro l
      cases first <;> simp [protocolOK]
    rw [List.append_assoc, hpre]
    by_cases hd : a.dialOk
    · rw [attemptBody, if_neg (by simpa using hd)]
      by_cases hg : a.greetCode ≠ 107
      · rw [if_pos hg]
        simp only [List.cons_append, List.nil_append, protocolOK]
        exact ih false (cid + 1) _ authed
      · rw [if_neg hg]
        push_neg at hg
        by_cases ha : ¬ a.authOk
        · rw [if_pos ha]
          simp only [List.cons_append, List.nil_append, protocolOK, hg, if_pos]
          have hmem : cid ∈ cid :: greeted := List.mem_cons_self cid greeted
          simp only [hmem, decide_True, Bool.true_and]
          have hao : a.authOk = false := by simpa using ha
          rw [hao]
          simp only [Bool.false_eq_true, if_neg (by simp : ¬ (false = true))]
          exact ih false (cid + 1) _ authed
        · rw [if_neg ha]
          push_neg at ha
          simp only [List.cons_append, protocolOK, hg, if_pos]
          have hmem : cid ∈ cid :: greeted := List.mem_cons_self cid greeted
          simp only [hmem, decide_True, Bool.true_and]
          rw [ha]
          simp only [eq_self_iff_true, if_true, List.append_eq]
          rw [protocolOK_innerTrace cid (cid :: greeted) (cid :: authed)
            (List.mem_cons_self cid authed) a.polls]
          exact ih false (cid + 1) _ _
    · rw [attemptBody, if_pos (by simpa using hd)]
      simp only [List.cons_append, List.nil_append, protocolOK]
      exact ih false (cid + 1) greeted authed

/-- C7: in every run of the supervisor loop, each connection attempt other
than the very first is immediately preceded by the 5-second rate-limit
sleep, and a `backend.list` is only ever sent on a connection whose
greeting had status 107 and whose own `auth` succeeded, in that order. -/
theorem c7_supervisor_discipline (as : List Attempt) :
    List.Chain' dialAfterSleep (runTrace as) ∧
    protocolOK [] [] (runTrace as) = true :=
  ⟨loopTrace_chain as true 0, loopTrace_protocolOK as true 0 [] []⟩

theorem skipSpaces_cons (c : Char) (cs : List Char) (h : ¬ (c = ' ' ∨ c = '\t')) :
    skipSpaces (c :: cs) = c :: cs := by
  simp [skipSpaces, h]

theorem skipSpaces_replicate (m : Nat) (cs : List Char) :
    skipSpaces (List.replicate m ' ' ++ cs) = skipSpaces cs := by
  induction m with
  | zero => rfl
  | succ m ih =>
    rw [List.replicate_succ, List.cons_append]
    simpa [skipSpaces] using ih

theorem digit_not_space (c : Char) (h : c.isDigit = true) : ¬ (c = ' ' ∨ c = '\t') := by
  rintro (rfl | rfl) <;> exact absurd h (by decide)

theorem takeDigits_exact : ∀ (ds : List Char) (w : Nat) (rest : List Char),
    (∀ c ∈ ds, c.isDigit = true) → ds.length ≤ w →
    (ds.length < w → ∀ c, rest.head? = some c → c.isDigit = false) →
    takeDigits w (ds ++ rest) = (ds, rest) := by
  intro ds
  induction ds with
  | nil =>
    intro w rest _ _ h3
    cases w with
    | zero => rfl
    | succ w =>
      cases rest with
      | nil => rfl
      | cons c cs =>
        have hc : c.isDigit = false := h3 (by simp) c rfl
        simp [takeDigits, hc]
  | cons d ds ih =>
    intro w rest hdig hlen h3
    cases w with
    | zero => simp at hlen
    | succ w =>
      have hd : d.isDigit = true := hdig d (by simp)
      have hrec := ih w rest (fun c hc => hdig c (by simp [hc]))
        (by simpa using hlen)
        (fun hlt c hc => h3 (by simpa using Nat.succ_lt_succ hlt) c hc)
      simp [takeDigits, hd, hrec]

theorem digitsVal_cons_zero (l : List Char) : digitsVal ('0' :: l) = digitsVal l := by
  have h0 : (0 * 10 + ('0'.toNat - 48)) = 0 := by decide
  simp [digitsVal, List.foldl_cons, h0]

theorem digitsVal_replicate_zero (m : Nat) (l : List Char) :
    digitsVal (List.replicate m '0' ++ l) = digitsVal l := by
  induction m with
  | zero => rfl
  | succ m ih =>
    rw [List.replicate_succ, List.cons_append, digitsVal_cons_zero, ih]

theorem natDigitsAux_ne_nil : ∀ fuel n, n < fuel → natDigitsAux fuel n ≠ [] := by
  intro fuel
  cases fuel with
  | zero => intro n h; omega
  | succ fuel =>
    intro n _
    rw [natDigitsAux]
    split <;> simp

theorem natDigitsAux_all_digit : ∀ fuel n, n < fuel →
    ∀ c ∈ natDigitsAux fuel n, c.isDigit = true := by
  intro fuel
  induction fuel with
  | zero => intro n h; omega
  | succ fuel ih =>
    intro n hn c hc
    rw [natDigitsAux] at hc
    by_cases h10 : n < 10
    · rw [if_pos h10] at hc
      rw [List.mem_singleton] at hc
      subst hc
      have : n < 10 := h10
      interval_cases n <;> decide
    · rw [if_neg h10] at hc
      rw [List.mem_append] at hc
      rcases hc with hc | hc
      · have hlt : n / 10 < fuel := by
          have := Nat.div_lt_self (show 0 < n by omega) (show 1 < 10 by omega)
          omega
        exact ih (n / 10) hlt c hc
      · rw [List.mem_singleton] at hc
        subst hc
        have hmod : n % 10 < 10 := Nat.mod_lt n (by omega)
        revert hmod
        generalize n % 10 = d
        intro hmod
        interval_cases d <;> decide

theorem natDigitsAux_val : ∀ fuel n, n < fuel → digitsVal (natDigitsAux fuel n) = n := by
  intro fuel
  induction fuel with
  | zero => intro n h; omega
  | succ fuel ih =>
    intro n hn
    rw [natDigitsAux]
    by_cases h10 : n < 10
    · rw [if_pos h10]
      have : n < 10 := h10
      interval_cases n <;> decide
    · rw [if_neg h10]
      rw [digitsVal, List.foldl_append]
      have hlt : n / 10 < fuel := by
        have := Nat.div_lt_self (show 0 < n by omega) (show 1 < 10 by omega)
        omega
      have hv := ih (n / 10) hlt
      rw [digitsVal] at hv
      rw [hv]
      have hmod : (Char.ofNat (48 + n % 10)).toNat - 48 = n % 10 := by
        have h9 : n % 10 < 10 := Nat.mod_lt n (by omega)
        revert h9
        generalize n % 10 = d
        intro h9
        interval_cases d <;> decide
      simp [List.foldl_cons, hmod]
      omega

theorem natDigitsAux_length_le : ∀ fuel n k, n < fuel → 1 ≤ k → n < 10 ^ k →
    (natDigitsAux fuel n).length ≤ k := by
  intro fuel
  induction fuel with
  | zero => intro n k h; omega
  | succ fuel ih =>
    intro n k hn hk hpow
    rw [natDigitsAux]
    by_cases h10 : n < 10
    · rw [if_pos h10]
      simpa using hk
    · rw [if_neg h10]
      rw [List.length_append, List.length_singleton]
      have hk2 : 2 ≤ k := by
        by_contra hcon
        have : k = 1 := by omega
        subst this
        simp at hpow
        omega
      have hlt : n / 10 < fuel := by
        have := Nat.div_lt_self (show 0 < n by omega) (show 1 < 10 by omega)
        omega
      have hdiv : n / 10 < 10 ^ (k - 1) := by
        rw [Nat.div_lt_iff_lt_mul (show 0 < 10 by omega)]
        have : 10 ^ (k - 1) * 10 = 10 ^ k := by
          rw [← pow_succ]
          congr 1
          omega
        omega
      have := ih (n / 10) (k - 1) hlt (by omega) hdiv
      omega

theorem natDigits_ne_nil (n : Nat) : natDigits n ≠ [] :=
  natDigitsAux_ne_nil (n + 1) n (Nat.lt_succ_self n)

theorem natDigits_all_digit (n : Nat) : ∀ c ∈ natDigits n, c.isDigit = true :=
  natDigitsAux_all_digit (n + 1) n (Nat.lt_succ_self n)

theorem natDigits_val (n : Nat) : digitsVal (natDigits n) = n :=
  natDigitsAux_val (n + 1) n (Nat.lt_succ_self n)

theorem natDigits_length_le (n k : Nat) (h1 : 1 ≤ k) (h2 : n < 10 ^ k) :
    (natDigits n).length ≤ k :=
  natDigitsAux_length_le (n + 1) n k (Nat.lt_succ_self n) h1 h2

theorem scanNum_exact (w m : Nat) (ds rest : List Char)
    (hds : ∀ c ∈ ds, c.isDigit = true) (hne : ds ≠ []) (hlen : ds.length ≤ w)
    (hrest : ds.length < w → ∀ c, rest.head? = some c → c.isDigit = false) :
    scanNum w (List.replicate m ' ' ++ (ds ++ rest)) = some (digitsVal ds, rest) := by
  obtain ⟨d, ds2, rfl⟩ : ∃ d ds2, ds = d :: ds2 := by
    cases ds with
    | nil => exact absurd rfl hne
    | cons d ds2 => exact ⟨d, ds2, rfl⟩
  simp only [scanNum]
  rw [skipSpaces_replicate, List.cons_append,
    skipSpaces_cons d _ (digit_not_space d (hds d (by simp))),
    ← List.cons_append, takeDigits_exact (d :: ds2) w rest hds hlen hrest]

/-- C9: formatting a header with `"%03d %8d\n"` for any status of at most
3 digits and length of at most 8 digits, then scanning it back with the
header scanner of `ReadResponse`, recovers exactly the original status and
length and leaves the stream after the newline untouched. -/
theorem c9_header_roundtrip (status length : Nat) (extra : List Char)
    (hs : status ≤ 999) (hl : length ≤ 99999999) :
    scanHeader (formatHeader status length ++ extra) = some (status, length, extra) := by
  have hs3 : (natDigits status).length ≤ 3 :=
    natDigits_length_le status 3 (by omega) (by omega)
  have hl8 : (natDigits length).length ≤ 8 :=
    natDigits_length_le length 8 (by omega) (by omega)
  have hp1dig : ∀ c ∈ List.replicate (3 - (natDigits status).length) '0' ++ natDigits status,
      c.isDigit = true := by
    intro c hc
    rw [List.mem_append] at hc
    rcases hc with hc | hc
    · rw [List.eq_of_mem_replicate hc]
      decide
    · exact natDigits_all_digit status c hc
  have hp1len : (List.replicate (3 - (natDigits status).length) '0' ++ natDigits status).length
      = 3 := by
    rw [List.length_append, List.length_replicate]
    omega
  have hp1ne : List.replicate (3 - (natDigits status).length) '0' ++ natDigits status ≠ [] := by
    intro h
    rw [List.append_eq_nil] at h
    exact natDigits_ne_nil status h.2
  have hshape : formatHeader status length ++ extra =
      List.replicate 0 ' ' ++
        ((List.replicate (3 - (natDigits status).length) '0' ++ natDigits status) ++
          (' ' :: (List.replicate (8 - (natDigits length).length) ' ' ++
            (natDigits length ++ ('\n' :: extra))))) := by
    simp [formatHeader, padLeft, List.append_assoc]
  have h1 := scanNum_exact 3 0
    (List.replicate (3 - (natDigits status).length) '0' ++ natDigits status)
    (' ' :: (List.replicate (8 - (natDigits length).length) ' ' ++
      (natDigits length ++ ('\n' :: extra))))
    hp1dig hp1ne (by rw [hp1len]) (by rw [hp1len]; omega)
  have h2 : scanNum 8 (' ' :: (List.replicate (8 - (natDigits length).length) ' ' ++
      (natDigits length ++ ('\n' :: extra)))) =
      some (digitsVal (natDigits length), '\n' :: extra) := by
    have hrepl : (' ' :: (List.replicate (8 - (natDigits length).length) ' ' ++
        (natDigits length ++ ('\n' :: extra)))) =
        List.replicate ((8 - (natDigits length).length) + 1) ' ' ++
          (natDigits length ++ ('\n' :: extra)) := by
      rw [List.replicate_succ, List.cons_append]
    rw [hrepl]
    exact scanNum_exact 8 ((8 - (natDigits length).length) + 1)
      (natDigits length) ('\n' :: extra)
      (natDigits_all_digit length) (natDigits_ne_nil length) hl8
      (fun _ c hc => by
        cases hc
        decide)
  rw [hshape]
  simp only [List.replicate_zero, List.nil_append] at h1 ⊢
  simp only [scanHeader, h1, h2, skipSpaces_cons '\n' extra (by decide),
    digitsVal_replicate_zero, natDigits_val]

/-- Witness for C9: status 107, length 13, followed by further bytes. -/
theorem c9_header_roundtrip_witness :
    formatHeader 107 13 = "107       13\n".toList ∧
    scanHeader (formatHeader 107 13 ++ "body".toList) = some (107, 13, "body".toList) :=
  ⟨by decide, c9_header_roundtrip 107 13 ("body".toList) (by decide) (by decide)⟩

end VBE
